import Mathlib

/-!
# Verification of the player-similarity nearest-neighbor query

Shallow embedding of `similarity_comp` from `src/similarities.ipynb`:

```python
def similarity_comp(df, player_name, player_season):
    n_nbrs = NearestNeighbors(n_neighbors=10, radius=0.4).fit(df[[0, 1, 2, 3]])
    x = (
        df.loc[(df["player"] == str(player_name)) & (df["season"] == player_season)][
            [0, 1, 2, 3]
        ]
        .to_numpy()
        .ravel()
        .tolist()
    )
    x = n_nbrs.kneighbors([x], 10, return_distance=False)
    x = df.iloc[x.ravel().tolist()][["player", "season"]]
    print(x)
```

Modelling choices:
* A dataframe row carries a player name (text), a season value (a Python
  scalar, text or integer), and the four numeric feature columns `0,1,2,3`;
  features are rationals (`ℚ`), so every definition is executable and
  decidable.
* Distances are compared through the *squared* Euclidean distance `sqDist`.
  Squaring is strictly monotone on nonnegative reals, so ordering by
  squared distance coincides with ordering by Euclidean distance, and a
  Euclidean distance is `0` exactly when the squared distance is `0`.
* `NearestNeighbors(...).fit` stores `n_neighbors`, `radius` and the feature
  matrix; `kneighbors(q, k)` validates `k > 0`, the query dimension against
  the fitted dimension (4), and `k ≤ n_samples`, mirroring scikit-learn's
  validation, then returns the indices of the `k` rows of smallest distance
  in ascending order.  Ties in distance are resolved by original row order
  (a stable, deterministic resolution of scikit-learn's unspecified tie
  order).
* Python's `df["player"] == str(player_name)` converts the player argument
  to text before comparing, while `df["season"] == player_season` compares
  the season values as given, with values of different runtime type unequal
  (`PyVal`/`pyEq`).
* `.ravel()` flattens the feature block of *all* matching rows into one
  flat query list, so `m` matching rows yield a query of length `4 * m`.
-/

/-- A 4-dimensional feature vector: the numeric columns `0,1,2,3` of the
cluster-distance table. -/
structure Vec4 where
  c0 : ℚ
  c1 : ℚ
  c2 : ℚ
  c3 : ℚ
deriving DecidableEq, Repr

instance : Inhabited Vec4 := ⟨⟨0, 0, 0, 0⟩⟩

/-- Squared Euclidean distance between two feature vectors.  Ordering by
`sqDist` agrees with ordering by Euclidean distance, and `sqDist a b = 0`
exactly when the Euclidean distance is `0`. -/
def sqDist (a b : Vec4) : ℚ :=
  (a.c0 - b.c0) ^ 2 + (a.c1 - b.c1) ^ 2 + (a.c2 - b.c2) ^ 2 + (a.c3 - b.c3) ^ 2

/-- A Python scalar value as it occurs in the identity columns and the query
arguments: text or integer. -/
inductive PyVal where
  | s : String → PyVal
  | i : Int → PyVal
deriving DecidableEq, Repr

instance : Inhabited PyVal := ⟨.s ""⟩

/-- Python's `str(...)` conversion. -/
def PyVal.toStr : PyVal → String
  | .s t => t
  | .i n => toString n

/-- Python / pandas `==` between two scalar values: values of different
runtime type are unequal (`1920 == "1920"` is `False` in Python). -/
def pyEq : PyVal → PyVal → Bool
  | .s a, .s b => a == b
  | .i a, .i b => a == b
  | _, _ => false

/-- One dataframe row: `player` column (text), `season` column (scalar),
and the four feature columns. -/
structure Row where
  player : String
  season : PyVal
  features : Vec4
deriving DecidableEq, Repr

instance : Inhabited Row := ⟨⟨"", default, default⟩⟩

/-- A feature table (dataframe): an ordered sequence of rows. -/
abbrev Table := List Row

/-- The boolean mask `(df["player"] == str(player_name)) & (df["season"] ==
player_season)` evaluated at one row: the player argument is passed through
`str(...)` before the exact comparison, the season argument is compared
as given. -/
def matchRow (r : Row) (player_name player_season : PyVal) : Bool :=
  (r.player == PyVal.toStr player_name) && pyEq r.season player_season

/-- The feature block `[[0, 1, 2, 3]]` of one row, in column order (what
`.to_numpy()` contributes for that row before `.ravel()`). -/
def rowFeats (r : Row) : List ℚ :=
  [r.features.c0, r.features.c1, r.features.c2, r.features.c3]

/-- `df.loc[mask][[0,1,2,3]].to_numpy().ravel().tolist()`: the feature
blocks of all rows matching the identity, flattened into one list. -/
def queryVec (df : Table) (player_name player_season : PyVal) : List ℚ :=
  ((df.filter (fun r => matchRow r player_name player_season)).map rowFeats).flatten

/-- Reassemble a flat list of length 4 into a feature vector (used only on
queries whose dimension check has passed). -/
def vecOfList : List ℚ → Vec4
  | [a, b, c, d] => ⟨a, b, c, d⟩
  | _ => default

/-- The state of a fitted `NearestNeighbors` estimator: the constructor
arguments `n_neighbors` and `radius`, and the fitted feature matrix. -/
structure NNModel where
  n_neighbors : Nat
  radius : ℚ
  data : List Vec4
deriving Repr

/-- `NearestNeighbors(n_neighbors=.., radius=..).fit(df[[0,1,2,3]])`. -/
def NearestNeighbors_fit (n_neighbors : Nat) (radius : ℚ) (df : Table) : NNModel :=
  { n_neighbors := n_neighbors, radius := radius, data := df.map Row.features }

/-- Errors surfaced by the query path.  `invalidK` and `dimensionMismatch`
are the validation errors scikit-learn's `kneighbors` actually raises;
`notFound` and `ambiguousMatch` are the spec's lookup-error vocabulary,
never produced by the code. -/
inductive SimErr where
  | invalidK
  | dimensionMismatch
  | notFound
  | ambiguousMatch
deriving DecidableEq, Repr

/-- Comparison keys for the neighbor ranking: `(row index, squared
distance)`, ordered by distance, ties by original row index (stable). -/
def distLE (a b : Nat × ℚ) : Prop :=
  a.2 < b.2 ∨ (a.2 = b.2 ∧ a.1 ≤ b.1)

instance : DecidableRel distLE := fun a b =>
  inferInstanceAs (Decidable (a.2 < b.2 ∨ (a.2 = b.2 ∧ a.1 ≤ b.1)))

instance : IsTotal (Nat × ℚ) distLE where
  total a b := by
    rcases lt_trichotomy a.2 b.2 with h | h | h
    · exact Or.inl (Or.inl h)
    · rcases Nat.le_total a.1 b.1 with h' | h'
      · exact Or.inl (Or.inr ⟨h, h'⟩)
      · exact Or.inr (Or.inr ⟨h.symm, h'⟩)
    · exact Or.inr (Or.inl h)

instance : IsTrans (Nat × ℚ) distLE where
  trans a b c hab hbc := by
    rcases hab with h | ⟨he, hn⟩
    · rcases hbc with h' | ⟨he', hn'⟩
      · exact Or.inl (h.trans h')
      · exact Or.inl (he' ▸ h)
    · rcases hbc with h' | ⟨he', hn'⟩
      · exact Or.inl (he ▸ h')
      · exact Or.inr ⟨he.trans he', hn.trans hn'⟩

/-- For each row index of the fitted matrix, its squared distance to the
query vector, in original row order. -/
def distPairs (q : Vec4) (data : List Vec4) : List (Nat × ℚ) :=
  (List.range data.length).map (fun i => (i, sqDist q (data.getD i default)))

/-- All `(index, squared distance)` pairs, sorted ascending by distance
with ties resolved by original row order. -/
def rankOf (q : Vec4) (data : List Vec4) : List (Nat × ℚ) :=
  List.insertionSort distLE (distPairs q data)

/-- `estimator.kneighbors([q], k, return_distance=False)` followed by
`.ravel().tolist()`: validation (`k > 0`, query dimension = fitted
dimension 4, `k ≤ n_samples`) and then the indices of the `k` nearest
fitted rows in ascending distance order. -/
def kneighbors (m : NNModel) (q : List ℚ) (k : Nat) : Except SimErr (List Nat) :=
  if k = 0 then .error .invalidK
  else if q.length ≠ 4 then .error .dimensionMismatch
  else if m.data.length < k then .error .invalidK
  else .ok (((rankOf (vecOfList q) m.data).take k).map Prod.fst)

/-- `df.iloc[idxs][["player", "season"]]`: project each result row index
back to its `(player, season)` identity, in order. -/
def ilocProj (df : Table) (idxs : List Nat) : List (String × PyVal) :=
  idxs.filterMap (fun i => (df[i]?).map (fun r => (r.player, r.season)))

/-- The index list the function's `kneighbors` call produces for a query
against an already-fitted model. -/
def simIdxWith (m : NNModel) (df : Table) (p s : PyVal) : Except SimErr (List Nat) :=
  kneighbors m (queryVec df p s) 10

/-- Query an already-fitted model and project the indices back to
identities. -/
def queryWithModel (m : NNModel) (df : Table) (p s : PyVal) :
    Except SimErr (List (String × PyVal)) :=
  (simIdxWith m df p s).map (ilocProj df)

/-- `similarity_comp` with the `radius` constructor argument left as a
parameter (the notebook fixes it to `0.4`). -/
def similarity_comp_r (radius : ℚ) (df : Table) (p s : PyVal) :
    Except SimErr (List (String × PyVal)) :=
  queryWithModel (NearestNeighbors_fit 10 radius df) df p s

/-- The notebook's `similarity_comp(df, player_name, player_season)`:
fit `NearestNeighbors(n_neighbors=10, radius=0.4)` on the four feature
columns, build the query vector by exact identity filtering, take the 10
nearest rows, and project them to `(player, season)` identities. -/
def similarity_comp (df : Table) (p s : PyVal) :
    Except SimErr (List (String × PyVal)) :=
  similarity_comp_r (2 / 5) df p s

/-- The intermediate index list (`x` after the `kneighbors` call) of
`similarity_comp`. -/
def simIdx (df : Table) (p s : PyVal) : Except SimErr (List Nat) :=
  simIdxWith (NearestNeighbors_fit 10 (2 / 5) df) df p s

/-- The feature vector stored at row index `i` of the table. -/
def featAt (df : Table) (i : Nat) : Vec4 :=
  (df.getD i default).features

/-- Squared distance between the feature vectors stored at two row
indices of the table. -/
def qDist (df : Table) (i0 i : Nat) : ℚ :=
  sqDist (featAt df i0) (featAt df i)

/-! ### State-passing rendering of the function body

Each pandas operation is rendered as a step taking the dataframe state and
returning its result together with the dataframe state it leaves behind;
reads (`fit` on the feature columns, `.loc` filtering, `.iloc` projection)
leave the table as they found it, which is exactly what the frame property
asserts. -/

/-- `NearestNeighbors(n_neighbors=10, radius=0.4).fit(df[[0,1,2,3]])` as a
step on the dataframe state. -/
def fit_st (df : Table) : NNModel × Table :=
  (NearestNeighbors_fit 10 (2 / 5) df, df)

/-- The `.loc` filtering / query-building line as a step on the dataframe
state. -/
def loc_st (df : Table) (p s : PyVal) : List ℚ × Table :=
  (queryVec df p s, df)

/-- The `.iloc` result projection as a step on the dataframe state. -/
def iloc_st (df : Table) (idxs : List Nat) : List (String × PyVal) × Table :=
  (ilocProj df idxs, df)

/-- The whole body of `similarity_comp` with the dataframe state threaded
through every step, so that the final state of the table is observable. -/
def similarity_comp_st (df : Table) (p s : PyVal) :
    Except SimErr (List (String × PyVal)) × Table :=
  let fitr := fit_st df
  let locr := loc_st fitr.2 p s
  match kneighbors fitr.1 locr.1 10 with
  | .error e => (.error e, locr.2)
  | .ok idxs =>
      let ilocr := iloc_st locr.2 idxs
      (.ok ilocr.1, ilocr.2)

/-! ### Concrete tables for evaluating the theorems on explicit inputs -/

/-- A concrete 10-row table with pairwise distinct identities and pairwise
distinct feature vectors. -/
def sampleTable : Table :=
  [⟨"P0", .i 1920, ⟨0, 0, 0, 0⟩⟩,
   ⟨"P1", .i 1920, ⟨1, 0, 0, 0⟩⟩,
   ⟨"P2", .i 1920, ⟨2, 0, 0, 0⟩⟩,
   ⟨"P3", .i 1920, ⟨3, 0, 0, 0⟩⟩,
   ⟨"P4", .i 1920, ⟨4, 0, 0, 0⟩⟩,
   ⟨"P5", .i 1920, ⟨5, 0, 0, 0⟩⟩,
   ⟨"P6", .i 1920, ⟨6, 0, 0, 0⟩⟩,
   ⟨"P7", .i 1920, ⟨7, 0, 0, 0⟩⟩,
   ⟨"P8", .i 1920, ⟨8, 0, 0, 0⟩⟩,
   ⟨"P9", .i 1920, ⟨9, 0, 0, 0⟩⟩]

/-- `sampleTable` with one extra row duplicating the identity
`("P3", 1920)`, so that identity matches two rows. -/
def dupTable : Table :=
  sampleTable ++ [⟨"P3", .i 1920, ⟨1, 1, 0, 0⟩⟩]

/-- The estimator the notebook fits, over `sampleTable`. -/
def sampleModel : NNModel :=
  NearestNeighbors_fit 10 (2 / 5) sampleTable

/-! ## Basic facts about distances, the ranking, and the projections -/

theorem sqDist_nonneg (a b : Vec4) : 0 ≤ sqDist a b := by
  unfold sqDist
  positivity

theorem sqDist_self (a : Vec4) : sqDist a a = 0 := by
  simp [sqDist]

theorem vecOfList_rowFeats (r : Row) : vecOfList (rowFeats r) = r.features := by
  rcases r with ⟨p, s, ⟨a, b, c, d⟩⟩
  rfl

theorem mem_distPairs {q : Vec4} {data : List Vec4} {p : Nat × ℚ} :
    p ∈ distPairs q data ↔
      p.1 < data.length ∧ p.2 = sqDist q (data.getD p.1 default) := by
  unfold distPairs
  simp only [List.mem_map, List.mem_range]
  constructor
  · rintro ⟨i, hi, rfl⟩
    exact ⟨hi, rfl⟩
  · rintro ⟨hp, hval⟩
    exact ⟨p.1, hp, by rw [← hval]⟩

theorem rankOf_perm (q : Vec4) (data : List Vec4) :
    (rankOf q data).Perm (distPairs q data) :=
  List.perm_insertionSort distLE (distPairs q data)

theorem rankOf_sorted (q : Vec4) (data : List Vec4) :
    List.Sorted distLE (rankOf q data) :=
  List.sorted_insertionSort distLE (distPairs q data)

theorem mem_rankOf {q : Vec4} {data : List Vec4} {p : Nat × ℚ} :
    p ∈ rankOf q data ↔
      p.1 < data.length ∧ p.2 = sqDist q (data.getD p.1 default) := by
  rw [(rankOf_perm q data).mem_iff]
  exact mem_distPairs

theorem rankOf_length (q : Vec4) (data : List Vec4) :
    (rankOf q data).length = data.length := by
  rw [(rankOf_perm q data).length_eq]
  simp [distPairs]

theorem distPairs_map_fst (q : Vec4) (data : List Vec4) :
    (distPairs q data).map Prod.fst = List.range data.length := by
  unfold distPairs
  have hcomp : (Prod.fst ∘ fun i => (i, sqDist q (data.getD i default))) = id := rfl
  rw [List.map_map, hcomp, List.map_id]

theorem rankOf_map_fst_perm (q : Vec4) (data : List Vec4) :
    ((rankOf q data).map Prod.fst).Perm (List.range data.length) := by
  rw [← distPairs_map_fst q data]
  exact (rankOf_perm q data).map Prod.fst

theorem queryVec_length (df : Table) (p s : PyVal) :
    (queryVec df p s).length =
      4 * (df.filter (fun r => matchRow r p s)).length := by
  unfold queryVec
  generalize df.filter (fun r => matchRow r p s) = l
  induction l with
  | nil => rfl
  | cons r t ih =>
    simp only [List.map_cons, List.flatten_cons, List.length_append,
      List.length_cons, rowFeats, List.length_nil, ih]
    omega

theorem getD_map_features (df : Table) (i : Nat) (h : i < df.length) :
    (df.map Row.features).getD i default = featAt df i := by
  simp [featAt, List.getD_eq_getElem?_getD, List.getElem?_map,
    List.getElem?_eq_getElem h]

theorem filter_eq_single (df : Table) (p s : PyVal) (i0 : Nat)
    (h1 : i0 < df.length)
    (h2 : matchRow (df.getD i0 default) p s = true)
    (h3 : ∀ j, j < df.length → j ≠ i0 → matchRow (df.getD j default) p s = false) :
    df.filter (fun r => matchRow r p s) = [df.getD i0 default] := by
  induction df generalizing i0 with
  | nil => exact absurd h1 (by simp)
  | cons r t ih =>
    cases i0 with
    | zero =>
      have hr : matchRow r p s = true := h2
      have ht : t.filter (fun x => matchRow x p s) = [] := by
        rw [List.filter_eq_nil_iff]
        intro a ha
        obtain ⟨j, hj, rfl⟩ := List.mem_iff_getElem.mp ha
        have hf := h3 (j + 1) (by simpa using Nat.succ_lt_succ hj) (by simp)
        rw [List.getD_cons_succ] at hf
        simp only [List.getD_eq_getElem?_getD, List.getElem?_eq_getElem hj,
          Option.getD_some] at hf
        simp [hf]
      simp [List.filter_cons, hr, ht]
    | succ i' =>
      have hr : matchRow r p s = false := h3 0 (by simp) (by simp)
      have hrec := ih i' (by simpa using Nat.lt_of_succ_lt_succ h1)
        (by simpa using h2)
        (fun j hj hne => by
          have := h3 (j + 1) (by simpa using Nat.succ_lt_succ hj)
            (by simpa using hne)
          simpa using this)
      simp [List.filter_cons, hr, hrec]

theorem ilocProj_mem (df : Table) (idxs : List Nat) (x : String × PyVal)
    (hx : x ∈ ilocProj df idxs) : ∃ r ∈ df, x = (r.player, r.season) := by
  unfold ilocProj at hx
  obtain ⟨i, _, hfi⟩ := List.mem_filterMap.mp hx
  obtain ⟨r, hr, hxr⟩ := Option.map_eq_some'.mp hfi
  exact ⟨r, List.getElem?_mem hr, hxr.symm⟩

theorem ilocProj_length (df : Table) (idxs : List Nat)
    (h : ∀ i ∈ idxs, i < df.length) : (ilocProj df idxs).length = idxs.length := by
  induction idxs with
  | nil => rfl
  | cons i t ih =>
    have hi : i < df.length := h i (by simp)
    obtain ⟨r, hr⟩ : ∃ r, df[i]? = some r :=
      ⟨df.get ⟨i, hi⟩, List.getElem?_eq_getElem hi⟩
    have ht := ih (fun j hj => h j (by simp [hj]))
    simp [ilocProj, List.filterMap_cons, hr] at ht ⊢
    exact ht

theorem similarity_comp_ok (df : Table) (p s : PyVal)
    (hlen : (queryVec df p s).length = 4) (h2 : 10 ≤ df.length) :
    similarity_comp df p s =
      .ok (ilocProj df
        (((rankOf (vecOfList (queryVec df p s)) (df.map Row.features)).take 10).map
          Prod.fst)) ∧
    simIdx df p s =
      .ok (((rankOf (vecOfList (queryVec df p s)) (df.map Row.features)).take 10).map
        Prod.fst) := by
  have hk : kneighbors (NearestNeighbors_fit 10 (2 / 5) df) (queryVec df p s) 10 =
      .ok (((rankOf (vecOfList (queryVec df p s)) (df.map Row.features)).take 10).map
        Prod.fst) := by
    unfold kneighbors
    rw [if_neg (by decide)]
    rw [if_neg (by simp [hlen])]
    rw [if_neg (by simp only [NearestNeighbors_fit, List.length_map, not_lt]; exact h2)]
    rfl
  constructor
  · unfold similarity_comp similarity_comp_r queryWithModel simIdxWith
    rw [hk]
    rfl
  · unfold simIdx simIdxWith
    rw [hk]

theorem queryVec_of_unique (df : Table) (p s : PyVal) (i0 : Nat)
    (h1 : i0 < df.length)
    (h2 : matchRow (df.getD i0 default) p s = true)
    (h3 : ∀ j, j < df.length → j ≠ i0 → matchRow (df.getD j default) p s = false) :
    queryVec df p s = rowFeats (df.getD i0 default) ∧
    vecOfList (queryVec df p s) = featAt df i0 := by
  have hq : queryVec df p s = rowFeats (df.getD i0 default) := by
    unfold queryVec
    rw [filter_eq_single df p s i0 h1 h2 h3]
    simp
  refine ⟨hq, ?_⟩
  rw [hq, vecOfList_rowFeats]
  rfl

theorem mem_rankOf_table {df : Table} {i0 : Nat} {p : Nat × ℚ} :
    p ∈ rankOf (featAt df i0) (df.map Row.features) ↔
      p.1 < df.length ∧ p.2 = qDist df i0 p.1 := by
  rw [mem_rankOf]
  constructor
  · rintro ⟨hlt, hval⟩
    rw [List.length_map] at hlt
    refine ⟨hlt, ?_⟩
    rw [hval, getD_map_features df p.1 hlt]
    rfl
  · rintro ⟨hlt, hval⟩
    refine ⟨by simpa using hlt, ?_⟩
    rw [getD_map_features df p.1 hlt]
    exact hval

theorem rank_take_pairwise (q : Vec4) (data : List Vec4) (k : Nat) :
    List.Pairwise distLE ((rankOf q data).take k) :=
  List.Pairwise.sublist (List.take_sublist k _) (rankOf_sorted q data)

theorem rank_take_snd_sorted (q : Vec4) (data : List Vec4) (k : Nat) :
    (((rankOf q data).take k).map (fun p : Nat × ℚ => p.2)).Sorted (· ≤ ·) := by
  refine List.pairwise_map.mpr ((rank_take_pairwise q data k).imp ?_)
  intro a b hab
  rcases hab with h | ⟨he, _⟩
  · exact le_of_lt h
  · exact le_of_eq he

theorem rank_take_cross (q : Vec4) (data : List Vec4) (k : Nat) :
    ∀ a ∈ (rankOf q data).take k, ∀ b ∈ (rankOf q data).drop k, distLE a b := by
  have hp : List.Pairwise distLE ((rankOf q data).take k ++ (rankOf q data).drop k) := by
    rw [List.take_append_drop]
    exact rankOf_sorted q data
  exact (List.pairwise_append.mp hp).2.2

theorem rank_head_unique_min (q : Vec4) (data : List Vec4) (i0 : Nat)
    (hi0 : i0 < data.length)
    (h0 : sqDist q (data.getD i0 default) = 0)
    (hpos : ∀ j, j < data.length → j ≠ i0 → sqDist q (data.getD j default) ≠ 0) :
    ∃ t, rankOf q data = (i0, 0) :: t := by
  have hlen : (rankOf q data).length = data.length := rankOf_length q data
  have hne : rankOf q data ≠ [] := by
    intro h
    rw [h] at hlen
    simp at hlen
    omega
  obtain ⟨a, t, hat⟩ := List.exists_cons_of_ne_nil hne
  have ha : a ∈ rankOf q data := by rw [hat]; exact List.mem_cons_self a t
  obtain ⟨ha1, ha2⟩ := mem_rankOf.mp ha
  have hmem : ((i0, (0 : ℚ)) : Nat × ℚ) ∈ rankOf q data :=
    mem_rankOf.mpr ⟨hi0, h0.symm⟩
  by_cases hcase : a.1 = i0
  · have : a = (i0, 0) := by
      have : a.2 = 0 := by rw [ha2, hcase, h0]
      rw [← hcase]
      exact Prod.ext rfl this
    exact ⟨t, by rw [hat, this]⟩
  · exfalso
    have hapos : 0 < a.2 := by
      have hnz : sqDist q (data.getD a.1 default) ≠ 0 := hpos a.1 ha1 hcase
      have hnn : 0 ≤ sqDist q (data.getD a.1 default) := sqDist_nonneg _ _
      rw [ha2]
      exact lt_of_le_of_ne hnn (Ne.symm hnz)
    have hmt : ((i0, (0 : ℚ)) : Nat × ℚ) ∈ t := by
      rw [hat] at hmem
      rcases List.mem_cons.mp hmem with h | h
      · exact absurd (congrArg Prod.fst h.symm) hcase
      · exact h
    have hrel : distLE a (i0, (0 : ℚ)) := by
      have hs := rankOf_sorted q data
      rw [hat] at hs
      exact List.rel_of_sorted_cons hs _ hmt
    rcases hrel with h | ⟨he, _⟩
    · exact absurd (h.trans hapos) (lt_irrefl _)
    · rw [he] at hapos
      exact lt_irrefl _ hapos

theorem rank_take_fst_map_dist (q : Vec4) (data : List Vec4) (k : Nat) :
    (((rankOf q data).take k).map Prod.fst).map
        (fun i => sqDist q (data.getD i default)) =
      ((rankOf q data).take k).map (fun p : Nat × ℚ => p.2) := by
  rw [List.map_map]
  apply List.map_congr_left
  intro a ha
  have := (mem_rankOf.mp (List.mem_of_mem_take ha)).2
  simp only [Function.comp_apply]
  exact this.symm

theorem rank_take_dist_sorted (q : Vec4) (data : List Vec4) (k : Nat) :
    ((((rankOf q data).take k).map Prod.fst).map
        (fun i => sqDist q (data.getD i default))).Sorted (· ≤ ·) := by
  rw [rank_take_fst_map_dist]
  exact rank_take_snd_sorted q data k

/-! ## Claims -/

/-- C1: for every table whose rows carry 4-dimensional feature vectors
(structural in `Vec4`), every `(player, season)` identity present exactly
once, and at least `k = 10` rows, `similarity_comp` succeeds with exactly
10 result identities, each the `(player, season)` pair of some row of the
table. -/
theorem findSimilar_returns_k_results (df : Table) (p s : PyVal)
    (h1 : (df.filter (fun r => matchRow r p s)).length = 1)
    (h2 : 10 ≤ df.length) :
    ∃ res, similarity_comp df p s = .ok res ∧ res.length = 10 ∧
      ∀ x ∈ res, ∃ r ∈ df, x = (r.player, r.season) := by
  have hlen : (queryVec df p s).length = 4 := by
    rw [queryVec_length, h1]
  obtain ⟨hok, -⟩ := similarity_comp_ok df p s hlen h2
  refine ⟨_, hok, ?_, fun x hx => ilocProj_mem df _ x hx⟩
  have hbound : ∀ i ∈ ((rankOf (vecOfList (queryVec df p s))
      (df.map Row.features)).take 10).map Prod.fst, i < df.length := by
    intro i hi
    obtain ⟨a, ha, rfl⟩ := List.mem_map.mp hi
    have := (mem_rankOf.mp (List.mem_of_mem_take ha)).1
    simpa using this
  rw [ilocProj_length df _ hbound, List.length_map, List.length_take,
    rankOf_length, List.length_map]
  omega

/-- C1 witness: the concrete query `("P3", 1920)` on `sampleTable`. -/
theorem findSimilar_returns_k_results_witness :
    (sampleTable.filter (fun r => matchRow r (.s "P3") (.i 1920))).length = 1 ∧
    10 ≤ sampleTable.length ∧
    ∃ res, similarity_comp sampleTable (.s "P3") (.i 1920) = .ok res ∧
      res.length = 10 ∧ ∀ x ∈ res, ∃ r ∈ sampleTable, x = (r.player, r.season) :=
  ⟨by decide, by decide,
    findSimilar_returns_k_results sampleTable (.s "P3") (.i 1920)
      (by decide) (by decide)⟩

/-- C4: the query is a deterministic pure function of its inputs, and a
second invocation that rebuilds the index from the unchanged table (any
model equal to a fresh fit of the table) produces the identical ordered
result list. -/
theorem findSimilar_deterministic_rebuild (df : Table) (p s : PyVal)
    (m : NNModel) (h : m = NearestNeighbors_fit 10 (2 / 5) df) :
    queryWithModel m df p s = similarity_comp df p s := by
  subst h
  rfl

/-- C4 witness: rebuilding the index over `sampleTable` and re-querying. -/
theorem findSimilar_deterministic_rebuild_witness :
    sampleModel = NearestNeighbors_fit 10 (2 / 5) sampleTable ∧
    queryWithModel sampleModel sampleTable (.s "P3") (.i 1920) =
      similarity_comp sampleTable (.s "P3") (.i 1920) :=
  ⟨rfl, findSimilar_deterministic_rebuild sampleTable (.s "P3") (.i 1920)
    sampleModel rfl⟩

/-- C6: the `radius` configuration value is a no-op for the query result:
for any two radius values, the ordered result list is identical; only the
fixed `n_neighbors = 10` rule determines the output. -/
theorem radius_is_noop (r1 r2 : ℚ) (df : Table) (p s : PyVal) :
    similarity_comp_r r1 df p s = similarity_comp_r r2 df p s := rfl

/-- C7: neither index construction nor querying mutates the table: the
state-passing rendering of the function body returns the table unchanged,
and its result agrees with the direct rendering. -/
theorem query_no_mutation (df : Table) (p s : PyVal) :
    (similarity_comp_st df p s).2 = df ∧
    (similarity_comp_st df p s).1 = similarity_comp df p s := by
  unfold similarity_comp_st fit_st loc_st iloc_st similarity_comp
    similarity_comp_r queryWithModel simIdxWith
  rcases hk : kneighbors (NearestNeighbors_fit 10 (2 / 5) df)
      (queryVec df p s) 10 with e | idxs
  · simp [hk, Except.map]
  · simp [hk, Except.map]

/-- C2: for a valid query (identity at exactly one row index `i0`, table of
at least 10 rows), the returned row indices are ordered by non-decreasing
(squared, hence Euclidean) distance to the query row's feature vector, and
no returned row's distance exceeds the distance of any row not returned. -/
theorem findSimilar_topk_sorted (df : Table) (p s : PyVal) (i0 : Nat)
    (h1 : i0 < df.length)
    (h2 : matchRow (df.getD i0 default) p s = true)
    (h3 : ∀ j, j < df.length → j ≠ i0 → matchRow (df.getD j default) p s = false)
    (h4 : 10 ≤ df.length) :
    ∃ idxs, simIdx df p s = .ok idxs ∧
      (idxs.map (fun i => qDist df i0 i)).Sorted (· ≤ ·) ∧
      ∀ i ∈ idxs, ∀ j, j < df.length → j ∉ idxs →
        qDist df i0 i ≤ qDist df i0 j := by
  obtain ⟨hq, hv⟩ := queryVec_of_unique df p s i0 h1 h2 h3
  have hlen : (queryVec df p s).length = 4 := by rw [hq]; rfl
  obtain ⟨-, hsim⟩ := similarity_comp_ok df p s hlen h4
  rw [hv] at hsim
  refine ⟨_, hsim, ?_, ?_⟩
  · have hmapeq :
        (((rankOf (featAt df i0) (df.map Row.features)).take 10).map Prod.fst).map
            (fun i => qDist df i0 i) =
          (((rankOf (featAt df i0) (df.map Row.features)).take 10).map Prod.fst).map
            (fun i => sqDist (featAt df i0) ((df.map Row.features).getD i default)) := by
      apply List.map_congr_left
      intro i hi
      obtain ⟨a, ha, rfl⟩ := List.mem_map.mp hi
      have halt : a.1 < df.length := by
        have := (mem_rankOf.mp (List.mem_of_mem_take ha)).1
        simpa using this
      rw [getD_map_features df a.1 halt]
      rfl
    rw [hmapeq]
    exact rank_take_dist_sorted (featAt df i0) (df.map Row.features) 10
  · intro i hi j hj hnj
    obtain ⟨a, ha, rfl⟩ := List.mem_map.mp hi
    have hmem := mem_rankOf_table.mp (List.mem_of_mem_take ha)
    have hjr : ((j, qDist df i0 j) : Nat × ℚ) ∈
        rankOf (featAt df i0) (df.map Row.features) :=
      mem_rankOf_table.mpr ⟨hj, rfl⟩
    have hsplit : ((j, qDist df i0 j) : Nat × ℚ) ∈
        (rankOf (featAt df i0) (df.map Row.features)).take 10 ++
          (rankOf (featAt df i0) (df.map Row.features)).drop 10 := by
      rw [List.take_append_drop]
      exact hjr
    have hjd : ((j, qDist df i0 j) : Nat × ℚ) ∈
        (rankOf (featAt df i0) (df.map Row.features)).drop 10 := by
      rcases List.mem_append.mp hsplit with h | h
      · exact absurd (List.mem_map.mpr ⟨_, h, rfl⟩) hnj
      · exact h
    have hrel := rank_take_cross (featAt df i0) (df.map Row.features) 10 a ha _ hjd
    rcases hrel with h | ⟨he, -⟩
    · rw [hmem.2] at h
      exact le_of_lt h
    · rw [hmem.2] at he
      exact le_of_eq he

/-- C2 witness: the concrete query `("P3", 1920)` on `sampleTable`,
whose identity sits at row index 3. -/
theorem findSimilar_topk_sorted_witness :
    (3 < sampleTable.length ∧
      matchRow (sampleTable.getD 3 default) (.s "P3") (.i 1920) = true ∧
      (∀ j, j < sampleTable.length → j ≠ 3 →
        matchRow (sampleTable.getD j default) (.s "P3") (.i 1920) = false) ∧
      10 ≤ sampleTable.length) ∧
    ∃ idxs, simIdx sampleTable (.s "P3") (.i 1920) = .ok idxs ∧
      (idxs.map (fun i => qDist sampleTable 3 i)).Sorted (· ≤ ·) ∧
      ∀ i ∈ idxs, ∀ j, j < sampleTable.length → j ∉ idxs →
        qDist sampleTable 3 i ≤ qDist sampleTable 3 j :=
  ⟨⟨by decide, by decide, by decide, by decide⟩,
    findSimilar_topk_sorted sampleTable (.s "P3") (.i 1920) 3
      (by decide) (by decide) (by decide) (by decide)⟩

/-- C3: for a valid query whose identity occurs at exactly one row index
`i0`, the result includes that row itself, its (squared, hence Euclidean)
distance to the query vector is `0`, and when no other row is also at
distance `0` it is ranked first, both in the index list and in the
projected `(player, season)` result. -/
theorem self_query_ranked_first (df : Table) (p s : PyVal) (i0 : Nat)
    (h1 : i0 < df.length)
    (h2 : matchRow (df.getD i0 default) p s = true)
    (h3 : ∀ j, j < df.length → j ≠ i0 → matchRow (df.getD j default) p s = false)
    (h4 : 10 ≤ df.length)
    (h5 : ∀ j, j < df.length → j ≠ i0 → qDist df i0 j ≠ 0) :
    qDist df i0 i0 = 0 ∧
    ∃ idxs, simIdx df p s = .ok idxs ∧ i0 ∈ idxs ∧ idxs.head? = some i0 ∧
      ∃ res, similarity_comp df p s = .ok res ∧
        res.head? = some ((df.getD i0 default).player, (df.getD i0 default).season) := by
  obtain ⟨hq, hv⟩ := queryVec_of_unique df p s i0 h1 h2 h3
  have hlen : (queryVec df p s).length = 4 := by rw [hq]; rfl
  obtain ⟨hok, hsim⟩ := similarity_comp_ok df p s hlen h4
  rw [hv] at hsim hok
  have hzero : qDist df i0 i0 = 0 := sqDist_self _
  obtain ⟨t, ht⟩ : ∃ t, rankOf (featAt df i0) (df.map Row.features) = (i0, 0) :: t := by
    apply rank_head_unique_min
    · simpa using h1
    · rw [getD_map_features df i0 h1]
      exact sqDist_self _
    · intro j hj hne
      rw [List.length_map] at hj
      rw [getD_map_features df j hj]
      exact h5 j hj hne
  have h10 : (10 : Nat) = 9 + 1 := rfl
  have htake : (rankOf (featAt df i0) (df.map Row.features)).take 10 =
      (i0, (0 : ℚ)) :: t.take 9 := by
    rw [ht, h10, List.take_succ_cons]
  rw [htake] at hsim hok
  refine ⟨hzero, _, hsim, ?_, ?_, ?_⟩
  · exact List.mem_cons_self _ _
  · rfl
  · have hget : df[i0]? = some (df.getD i0 default) := by
      rw [List.getElem?_eq_getElem h1]
      rw [List.getD_eq_getElem?_getD, List.getElem?_eq_getElem h1]
      rfl
    refine ⟨_, hok, ?_⟩
    simp only [List.map_cons, ilocProj, List.filterMap_cons, hget, Option.map_some']
    rfl

/-- C3 witness: the concrete query `("P3", 1920)` on `sampleTable`, where
all other rows are at nonzero distance from row 3. -/
theorem self_query_ranked_first_witness :
    (3 < sampleTable.length ∧
      matchRow (sampleTable.getD 3 default) (.s "P3") (.i 1920) = true ∧
      (∀ j, j < sampleTable.length → j ≠ 3 →
        matchRow (sampleTable.getD j default) (.s "P3") (.i 1920) = false) ∧
      10 ≤ sampleTable.length ∧
      (∀ j, j < sampleTable.length → j ≠ 3 → qDist sampleTable 3 j ≠ 0)) ∧
    (qDist sampleTable 3 3 = 0 ∧
      ∃ idxs, simIdx sampleTable (.s "P3") (.i 1920) = .ok idxs ∧ 3 ∈ idxs ∧
        idxs.head? = some 3 ∧
        ∃ res, similarity_comp sampleTable (.s "P3") (.i 1920) = .ok res ∧
          res.head? = some ((sampleTable.getD 3 default).player,
            (sampleTable.getD 3 default).season)) := by
  have h5 : ∀ j, j < sampleTable.length → j ≠ 3 → qDist sampleTable 3 j ≠ 0 := by
    intro j hj hne
    have hj10 : j < 10 := by simpa [sampleTable] using hj
    clear hj
    interval_cases j
    · norm_num [qDist, featAt, sqDist, sampleTable]
    · norm_num [qDist, featAt, sqDist, sampleTable]
    · norm_num [qDist, featAt, sqDist, sampleTable]
    · exact absurd rfl hne
    · norm_num [qDist, featAt, sqDist, sampleTable]
    · norm_num [qDist, featAt, sqDist, sampleTable]
    · norm_num [qDist, featAt, sqDist, sampleTable]
    · norm_num [qDist, featAt, sqDist, sampleTable]
    · norm_num [qDist, featAt, sqDist, sampleTable]
    · norm_num [qDist, featAt, sqDist, sampleTable]
  exact ⟨⟨by decide, by decide, by decide, by decide, h5⟩,
    self_query_ranked_first sampleTable (.s "P3") (.i 1920) 3
      (by decide) (by decide) (by decide) (by decide) h5⟩

/-- C5 counterexample: querying `sampleTable` for the absent identity
`("Nobody", 1920)` fails, but with a dimension-mismatch error (the
concatenated query vector is empty), not with a `NotFound` error. -/
theorem absent_identity_not_notFound :
    similarity_comp sampleTable (.s "Nobody") (.i 1920) =
      .error .dimensionMismatch ∧
    similarity_comp sampleTable (.s "Nobody") (.i 1920) ≠
      .error .notFound := by
  have h : similarity_comp sampleTable (.s "Nobody") (.i 1920) =
      .error .dimensionMismatch := by rfl
  refine ⟨h, ?_⟩
  rw [h]
  intro hc
  exact SimErr.noConfusion (Except.error.inj hc)

/-- C5 amended: for every nonempty table and every identity matching no
row, the query fails — with a dimension-mismatch error on the empty
concatenated query vector rather than a `NotFound` error — and returns no
partial result. -/
theorem absent_identity_dimension_error (df : Table) (p s : PyVal)
    (_hne : df ≠ [])
    (h : ∀ r ∈ df, matchRow r p s = false) :
    similarity_comp df p s = .error .dimensionMismatch := by
  have hfil : df.filter (fun r => matchRow r p s) = [] :=
    List.filter_eq_nil_iff.mpr (fun a ha => by simp [h a ha])
  have hq : queryVec df p s = [] := by
    unfold queryVec
    rw [hfil]
    rfl
  unfold similarity_comp similarity_comp_r queryWithModel simIdxWith kneighbors
  rw [hq]
  rfl

/-- C5 amended witness: the absent identity `("Nobody", 1920)` on
`sampleTable`. -/
theorem absent_identity_dimension_error_witness :
    sampleTable ≠ [] ∧
    (∀ r ∈ sampleTable, matchRow r (.s "Nobody") (.i 1920) = false) ∧
    similarity_comp sampleTable (.s "Nobody") (.i 1920) =
      .error .dimensionMismatch :=
  ⟨by decide, by decide,
    absent_identity_dimension_error sampleTable (.s "Nobody") (.i 1920)
      (by decide) (by decide)⟩

/-- C8: with a dimension-correct query vector, `kneighbors` raises
`InvalidK` exactly when `k ≤ 0` or `k > N`; in particular `k > N` errors,
and `k = N` (with `k` positive) returns every row of the table, ordered by
non-decreasing (squared, hence Euclidean) distance. -/
theorem kneighbors_k_boundary (m : NNModel) (q : List ℚ) (k : Nat)
    (hq : q.length = 4) :
    (kneighbors m q k = .error .invalidK ↔ k ≤ 0 ∨ m.data.length < k) ∧
    (m.data.length < k → kneighbors m q k = .error .invalidK) ∧
    (k = m.data.length → 0 < k →
      ∃ idxs, kneighbors m q k = .ok idxs ∧
        idxs.Perm (List.range m.data.length) ∧
        (idxs.map (fun i => sqDist (vecOfList q)
          (m.data.getD i default))).Sorted (· ≤ ·)) := by
  unfold kneighbors
  rw [hq]
  by_cases hk0 : k = 0
  · subst hk0
    rw [if_pos rfl]
    refine ⟨⟨fun _ => Or.inl (le_refl 0), fun _ => rfl⟩, fun _ => rfl, ?_⟩
    intro hke hpos
    exact absurd hpos (lt_irrefl 0)
  · rw [if_neg hk0, if_neg (by simp)]
    by_cases hlt : m.data.length < k
    · rw [if_pos hlt]
      refine ⟨⟨fun _ => Or.inr hlt, fun _ => rfl⟩, fun _ => rfl, ?_⟩
      intro hke hpos
      rw [hke] at hlt
      exact absurd hlt (lt_irrefl _)
    · rw [if_neg hlt]
      refine ⟨?_, fun hcon => absurd hcon hlt, ?_⟩
      · constructor
        · intro hcon
          exact Except.noConfusion hcon
        · intro hor
          rcases hor with h | h
          · omega
          · exact absurd h hlt
      · intro hke hpos
        refine ⟨_, rfl, ?_, ?_⟩
        · have htake : (rankOf (vecOfList q) m.data).take k =
              rankOf (vecOfList q) m.data := by
            apply List.take_of_length_le
            rw [rankOf_length]
            omega
          rw [htake]
          exact rankOf_map_fst_perm _ _
        · exact rank_take_dist_sorted (vecOfList q) m.data k

/-- C8 witness: `k = N = 10` on the estimator fitted over `sampleTable`,
with the dimension-correct query `[0, 0, 0, 1]`. -/
theorem kneighbors_k_boundary_witness :
    ([0, 0, 0, 1] : List ℚ).length = 4 ∧
    ((kneighbors sampleModel [0, 0, 0, 1] 10 = .error .invalidK ↔
        10 ≤ 0 ∨ sampleModel.data.length < 10) ∧
      (sampleModel.data.length < 10 →
        kneighbors sampleModel [0, 0, 0, 1] 10 = .error .invalidK) ∧
      (10 = sampleModel.data.length → 0 < 10 →
        ∃ idxs, kneighbors sampleModel [0, 0, 0, 1] 10 = .ok idxs ∧
          idxs.Perm (List.range sampleModel.data.length) ∧
          (idxs.map (fun i => sqDist (vecOfList [0, 0, 0, 1])
            (sampleModel.data.getD i default))).Sorted (· ≤ ·))) :=
  ⟨rfl, kneighbors_k_boundary sampleModel [0, 0, 0, 1] 10 rfl⟩

/-- C9: when the identity matches `m > 1` rows, the implementation does not
select the first match: the query vector is the concatenation of all `m`
matching feature blocks (length `4·m`), and the nearest-neighbor call fails
rather than returning a result. -/
theorem duplicate_match_concatenates (df : Table) (p s : PyVal) (m : Nat)
    (hm : (df.filter (fun r => matchRow r p s)).length = m)
    (h2 : 2 ≤ m) :
    (queryVec df p s).length = 4 * m ∧
    ∃ e, similarity_comp df p s = .error e := by
  have hlen : (queryVec df p s).length = 4 * m := by
    rw [queryVec_length, hm]
  refine ⟨hlen, SimErr.dimensionMismatch, ?_⟩
  unfold similarity_comp similarity_comp_r queryWithModel simIdxWith kneighbors
  rw [if_neg (by decide)]
  rw [if_pos (by rw [hlen]; omega)]
  rfl

/-- C9 witness: on `dupTable` the identity `("P3", 1920)` matches two rows. -/
theorem duplicate_match_concatenates_witness :
    (dupTable.filter (fun r => matchRow r (.s "P3") (.i 1920))).length = 2 ∧
    2 ≤ 2 ∧
    ((queryVec dupTable (.s "P3") (.i 1920)).length = 4 * 2 ∧
      ∃ e, similarity_comp dupTable (.s "P3") (.i 1920) = .error e) :=
  ⟨by decide, by decide,
    duplicate_match_concatenates dupTable (.s "P3") (.i 1920) 2
      (by decide) (by decide)⟩

/-- C10: the identity match is asymmetric in type coercion: a row matches
iff its `player` text equals the *string form* of the player argument and
its `season` value equals the season argument *as given* (same runtime
type and value); concretely, the integer `1920` has string form `"1920"`
(so it would match a stored player text `"1920"`), while as a season the
stored integer `1920` is not matched by the text `"1920"`, only by the
integer `1920` itself. -/
theorem match_coercion_asymmetric :
    (∀ (r : Row) (pn ps : PyVal),
        matchRow r pn ps = true ↔
          (r.player = PyVal.toStr pn ∧ pyEq r.season ps = true)) ∧
    PyVal.toStr (.i 1920) = "1920" ∧
    pyEq (.i 1920) (.s "1920") = false ∧
    pyEq (.i 1920) (.i 1920) = true := by
  refine ⟨?_, rfl, rfl, by decide⟩
  intro r pn ps
  unfold matchRow
  rw [Bool.and_eq_true, beq_iff_eq]
